import Mathlib

/-!
# Spectral noise gate of `src/App.js`

A shallow embedding of the audio core of the React component `App`:
the per-frame gain decision of `processAudio.process`, the calibration
chain `calibrateBackground.captureSample`, and the session transitions
`startRecording` / `stopRecording`.

Numbers are rationals.  The gain decision is taken in exact arithmetic.
The averaging of the calibration accumulates in a `Float32Array`, so every
store there is rounded as IEEE 754 does, to a double and then to a float32.
The non-finite values are merged into `none`: the NaN read past the end of
an array (or `0 / 0`), and the infinity of a float32 overflow, which needs
a sum of readings of magnitude `2 ^ 128`.
-/

namespace NoiseExtraction

/-- A JavaScript number as far as the gate needs it: `some q` is the
finite value `q`, `none` is NaN. -/
abbrev Num := Option ℚ

/-- The subtraction `a - b` of JavaScript: NaN as soon as one operand is NaN. -/
def Num.sub (a b : Num) : Num :=
  match a, b with
  | some x, some y => some (x - y)
  | _, _ => none

/-- The addition `a + b` of JavaScript: NaN as soon as one operand is NaN. -/
def Num.add (a b : Num) : Num :=
  match a, b with
  | some x, some y => some (x + y)
  | _, _ => none

/-- The division `a / n` by an array length.  It is used by the averaging
loop only, where a zero divisor (no samples) goes with a zero dividend,
so that `0 / 0` is NaN; a NaN dividend stays NaN. -/
def Num.divLength (a : Num) (n : Nat) : Num :=
  match a with
  | some x => if n = 0 then none else some (x / (n : ℚ))
  | none => none

/-- The read `arr[i]` of a `Float32Array` holding a noise profile: past the
end it is `undefined`, which arithmetic turns into NaN. -/
def readBin (arr : List Num) (i : Nat) : Num :=
  (arr[i]?).join

/-- The two accumulators of the comparison loop of `process`. -/
structure LoopAcc where
  totalChange : ℚ
  significantChanges : Nat
  deriving DecidableEq, Repr

/-- One iteration of the loop `for (let i = 0; i < bufferLength; i++)` of
`process` (App.js 138-148): the bin is significant when
`difference > 6`; a NaN difference compares false. -/
def processBin (dataArray : List ℚ) (backgroundData : List Num)
    (acc : LoopAcc) (i : Nat) : LoopAcc :=
  let currentLevel : Num := dataArray[i]?
  let backgroundLevel : Num := readBin backgroundData i
  let difference : Num := Num.sub currentLevel backgroundLevel
  match difference with
  | some d =>
    if d > 6 then ⟨acc.totalChange + d, acc.significantChanges + 1⟩ else acc
  | none => acc

/-- The whole comparison loop, from `totalChange = 0` and
`significantChanges = 0`. -/
def processLoop (bufferLength : Nat) (dataArray : List ℚ)
    (backgroundData : List Num) : LoopAcc :=
  (List.range bufferLength).foldl (processBin dataArray backgroundData) ⟨0, 0⟩

/-- The gain chosen from the count (App.js 151-156).  With
`bufferLength = 0` the ratio `0 / 0` is NaN in JavaScript and `0` here;
both fail `changeRatio > 0.1`. -/
def gainValue (significantChanges bufferLength : Nat) : ℚ :=
  let changeRatio : ℚ := (significantChanges : ℚ) / (bufferLength : ℚ)
  if changeRatio > 1 / 10 then min 1 (changeRatio * 3) else 1 / 10

/-- The value `process` hands to `gain.setValueAtTime` when a noise
profile is present; `bufferLength` is the length of `dataArray`. -/
def processGain (dataArray : List ℚ) (backgroundData : List Num) : ℚ :=
  gainValue (processLoop dataArray.length dataArray backgroundData).significantChanges
    dataArray.length

/-- The number of significant bins in the words of the specification:
the bins whose `delta = live - profile` exceeds the threshold. -/
def specSignificantCount (thresholdDb : ℚ) (live profile : List ℚ) : Nat :=
  (List.zipWith (fun l p => l - p) live profile).countP (fun delta => delta > thresholdDb)

/-- The algorithm `computeGain` of the specification (steps 3 to 6), with
its tunables. -/
def specComputeGain (live profile : List ℚ)
    (thresholdDb minChangeRatio gainFloor gainCeilingMultiplier : ℚ) : ℚ :=
  let changeRatio : ℚ := (specSignificantCount thresholdDb live profile : ℚ) / (live.length : ℚ)
  if changeRatio ≤ minChangeRatio then gainFloor
  else min 1 (changeRatio * gainCeilingMultiplier)

/-! ## Calibration -/

/-- The `analyserRef.current.frequencyBinCount` of every analyser the
component creates: half of the `fftSize = 2048` set by `startRecording`. -/
def frequencyBinCount : Nat := 2048 / 2

/-- The call `getFloatFrequencyData(dataArray)` on an array of
`bufferLength` cells: the analyser writes its current reading bin by bin. -/
def getFloatFrequencyData (reading : Nat → ℚ) (bufferLength : Nat) : List ℚ :=
  (List.range bufferLength).map reading

/-- The integer nearest to `x`, the even one of the two when `x` lies half
way. -/
def roundHalfEven (x : ℚ) : ℤ :=
  let f : ℤ := ⌊x⌋
  let r : ℚ := x - f
  if r < 1 / 2 then f else if 1 / 2 < r then f + 1 else if f % 2 = 0 then f else f + 1

/-- The number of halvings that bring `n` below 2, that is `⌊log₂ n⌋` for
`n > 0`, when `fuel` is at least that number. -/
def floorLog2 : Nat → Nat → Nat
  | 0, _ => 0
  | fuel + 1, n => if n < 2 then 0 else floorLog2 fuel (n / 2) + 1

/-- The binary exponent of `q ≠ 0`: the `e` with `2 ^ e ≤ |q| < 2 ^ (e + 1)`.
The difference of the exponents of numerator and denominator is `e` or
`e + 1`. -/
def binaryExponent (q : ℚ) : ℤ :=
  let e : ℤ := (floorLog2 q.num.natAbs q.num.natAbs : ℤ) - (floorLog2 q.den q.den : ℤ)
  if (2 : ℚ) ^ e ≤ |q| then e else e - 1

/-- The IEEE 754 rounding (to nearest, ties to even) of `q` to the binary
format of precision `p` bits and exponents `emin` to `emax`: the multiple of
the quantum `2 ^ (e - (p - 1))` nearest to `q`, where `e` is the exponent of
`q`, not below `emin` (subnormal numbers).  A result of magnitude
`2 ^ (emax + 1)` or more is an infinity, here `none`. -/
def roundBinary (p : Nat) (emin emax : ℤ) (q : ℚ) : Num :=
  if q = 0 then some 0 else
  let e : ℤ := max (binaryExponent q) emin
  let quantum : ℚ := (2 : ℚ) ^ (e - ((p : ℤ) - 1))
  let r : ℚ := (roundHalfEven (q / quantum) : ℚ) * quantum
  if |r| < (2 : ℚ) ^ (emax + 1) then some r else none

/-- The rounding to a double, the type of every JavaScript number. -/
def toFloat64 (q : ℚ) : Num := roundBinary 53 (-1022) 1023 q

/-- The rounding to a float32, the type of a `Float32Array` cell. -/
def toFloat32 (q : ℚ) : Num := roundBinary 24 (-126) 127 q

/-- The content of a `Float32Array` cell after the assignment of the result
of an arithmetic operation whose exact value is `a`: the operation rounds to
a double, the store rounds the double to a float32. -/
def storeFloat32 (a : Num) : Num :=
  (a.bind toFloat64).bind toFloat32

/-- The loop `for (let i = 0; i < bufferLength; i++) averageSpectrum[i] += sample[i]`
(App.js 97-99) for one sample. -/
def addSample (bufferLength : Nat) (averageSpectrum : List Num) (sample : List ℚ) :
    List Num :=
  (List.range bufferLength).map
    (fun i => storeFloat32 (Num.add (readBin averageSpectrum i) (sample[i]?)))

/-- The averaging of `captureSample` (App.js 93-104): a zeroed
`Float32Array(bufferLength)`, every sample added in turn, every cell divided
by `samples.length`. -/
def averageSamples (bufferLength : Nat) (samples : List (List ℚ)) : List Num :=
  let sums := samples.foldl (addSample bufferLength) (List.replicate bufferLength (some 0))
  (List.range bufferLength).map
    (fun i => storeFloat32 (Num.divLength (readBin sums i) samples.length))

/-- The averaging seen from one bin: the values of the bin in the samples
are added one after the other into a float32 cell that starts at 0, and the
cell is then divided by their number. -/
def float32Mean (bins : List ℚ) : Num :=
  storeFloat32 (Num.divLength
    (bins.foldl (fun cell x => storeFloat32 (Num.add cell (some x))) (some 0)) bins.length)

/-- The number of samples of a calibration: `totalSamples` (App.js 88). -/
def totalSamples : Nat := 20

/-! ## The component as a transition system -/

/-- A pending `setTimeout(() => captureSample(sampleCount), sampleInterval)`
of one `calibrateBackground` call, with the `samples` array its closure
shares. -/
structure CaptureTimer where
  samples : List (List ℚ)
  sampleCount : Nat
  deriving DecidableEq, Repr

/-- The state of the component that the audio core reads or writes.  The
stream, the audio context, the source node and the `error` text are left
out: no transition below reads them. -/
structure State where
  /-- React state `isRecording`. -/
  isRecording : Bool
  /-- React state `noiseProfile`. -/
  noiseProfile : Option (List Num)
  /-- React state `isCalibrating`. -/
  isCalibrating : Bool
  /-- Whether `analyserRef.current` is set. -/
  analyser : Bool
  /-- The node `gainNodeRef.current`, given by the value of its gain. -/
  gainNode : Option ℚ
  /-- The profile `backgroundDataRef.current`. -/
  backgroundData : Option (List Num)
  /-- The handle `animationFrameRef.current`. -/
  animationFrame : Option Nat
  /-- Handles of the `requestAnimationFrame(process)` callbacks not yet run
  or cancelled, oldest first. -/
  frames : List Nat
  /-- The handle the next `requestAnimationFrame` returns (handles are
  positive, hence truthy). -/
  nextFrame : Nat
  /-- Pending `captureSample` timers, oldest first; all have the same delay,
  so they fire in this order. -/
  timers : List CaptureTimer
  deriving DecidableEq, Repr

/-- The component right after mounting. -/
def State.initial : State :=
  { isRecording := false, noiseProfile := none, isCalibrating := false,
    analyser := false, gainNode := none, backgroundData := none,
    animationFrame := none, frames := [], nextFrame := 1, timers := [] }

/-- The gain of a node fresh from `createGain()`: the Web Audio default. -/
def createGain : ℚ := 1

/-- The body of `process` up to the rescheduling (App.js 131-159) on the
gain in effect: with a profile the new gain is set, without one the gain is
not touched. -/
def processStep (dataArray : List ℚ) (backgroundData : Option (List Num)) (gain : ℚ) : ℚ :=
  match backgroundData with
  | some background => processGain dataArray background
  | none => gain

/-- The callback `process` (App.js 130-162): one step on the gain, then
`animationFrameRef.current = requestAnimationFrame(process)`. -/
def process (s : State) (reading : Nat → ℚ) : State :=
  let dataArray := getFloatFrequencyData reading frequencyBinCount
  { s with
    gainNode := s.gainNode.map (processStep dataArray s.backgroundData)
    animationFrame := some s.nextFrame
    frames := s.frames ++ [s.nextFrame]
    nextFrame := s.nextFrame + 1 }

/-- The function `processAudio` (App.js 124-165). -/
def processAudio (s : State) (reading : Nat → ℚ) : State :=
  if !s.analyser || s.gainNode.isNone then s else process s reading

/-- The function `startRecording` (App.js 26-62) when the microphone is
granted: new analyser and gain node, then `processAudio()`. -/
def startRecording (s : State) (reading : Nat → ℚ) : State :=
  processAudio { s with analyser := true, gainNode := some createGain, isRecording := true }
    reading

/-- The function `stopRecording` (App.js 64-78): the callback registered
under `animationFrameRef.current` is cancelled, the profile is dropped.
Nothing is done about `captureSample` timers. -/
def stopRecording (s : State) : State :=
  { s with
    frames := match s.animationFrame with
      | some handle => s.frames.filter (fun h => h != handle)
      | none => s.frames
    isRecording := false
    noiseProfile := none
    backgroundData := none }

/-- The function `captureSample(sampleCount)` (App.js 90-119) of the
calibration whose `samples` array is `timer.samples`. -/
def captureSample (s : State) (timer : CaptureTimer) (reading : Nat → ℚ) : State :=
  if timer.sampleCount ≥ totalSamples then
    let averageSpectrum := averageSamples frequencyBinCount timer.samples
    { s with
      noiseProfile := some averageSpectrum
      backgroundData := some averageSpectrum
      isCalibrating := false }
  else
    let dataArray := getFloatFrequencyData reading frequencyBinCount
    { s with
      timers := s.timers ++ [⟨timer.samples ++ [dataArray], timer.sampleCount + 1⟩] }

/-- The function `calibrateBackground` (App.js 80-122). -/
def calibrateBackground (s : State) (reading : Nat → ℚ) : State :=
  if !s.analyser then s
  else captureSample { s with isCalibrating := true } ⟨[], 0⟩ reading

/-- What can happen to the component; `reading` is what the analyser
delivers to the `getFloatFrequencyData` call made during the event. -/
inductive Event where
  | startRecording (reading : Nat → ℚ)
  | stopRecording
  | calibrateBackground (reading : Nat → ℚ)
  | timeout (reading : Nat → ℚ)
  | animationFrame (reading : Nat → ℚ)

/-- One event.  A timeout runs the oldest pending `captureSample`, an
animation frame the oldest pending `process`. -/
def step (s : State) : Event → State
  | .startRecording reading => startRecording s reading
  | .stopRecording => stopRecording s
  | .calibrateBackground reading => calibrateBackground s reading
  | .timeout reading =>
    match s.timers with
    | [] => s
    | timer :: rest => captureSample { s with timers := rest } timer reading
  | .animationFrame reading =>
    match s.frames with
    | [] => s
    | _ :: rest => process { s with frames := rest } reading

/-- A sequence of events, first to last. -/
def run (s : State) (events : List Event) : State :=
  events.foldl step s

/-- Whether the event is a `startRecording`. -/
def Event.isStart : Event → Bool
  | .startRecording _ => true
  | _ => false

/-- The reading a timeout event delivers to `captureSample`. -/
def Event.captured : Event → Option (Nat → ℚ)
  | .timeout reading => some reading
  | _ => none

/-- Whether the event is a timer or an animation frame firing, the events
that happen by themselves while a calibration runs. -/
def Event.isCallback : Event → Bool
  | .timeout _ => true
  | .animationFrame _ => true
  | _ => false

/-! ## The comparison loop counts the significant bins -/

/-- Whether the iteration for bin `i` takes the branch `difference > 6`. -/
def significantBin (dataArray : List ℚ) (backgroundData : List Num) (i : Nat) : Bool :=
  match Num.sub (dataArray[i]?) (readBin backgroundData i) with
  | some d => decide (d > 6)
  | none => false

theorem processBin_significantChanges (dataArray : List ℚ) (backgroundData : List Num)
    (acc : LoopAcc) (i : Nat) :
    (processBin dataArray backgroundData acc i).significantChanges =
      acc.significantChanges + if significantBin dataArray backgroundData i then 1 else 0 := by
  unfold processBin significantBin
  cases h : Num.sub (dataArray[i]?) (readBin backgroundData i) with
  | none => simp [h]
  | some d => by_cases hd : d > 6 <;> simp [h, hd]

theorem foldl_processBin_significantChanges (dataArray : List ℚ) (backgroundData : List Num)
    (indices : List Nat) (acc : LoopAcc) :
    (indices.foldl (processBin dataArray backgroundData) acc).significantChanges =
      acc.significantChanges + indices.countP (significantBin dataArray backgroundData) := by
  induction indices generalizing acc with
  | nil => simp
  | cons i rest ih =>
    rw [List.foldl_cons, ih, processBin_significantChanges, List.countP_cons]
    omega

theorem processLoop_significantChanges (bufferLength : Nat) (dataArray : List ℚ)
    (backgroundData : List Num) :
    (processLoop bufferLength dataArray backgroundData).significantChanges =
      (List.range bufferLength).countP (significantBin dataArray backgroundData) := by
  unfold processLoop
  rw [foldl_processBin_significantChanges]
  simp

theorem significantBin_zero (l p : ℚ) (live profile : List ℚ) :
    significantBin (l :: live) ((p :: profile).map some) 0 = decide (l - p > 6) := by
  simp [significantBin, readBin, Num.sub]

theorem significantBin_succ (l : ℚ) (p : Num) (live : List ℚ) (background : List Num) (i : Nat) :
    significantBin (l :: live) (p :: background) (i + 1) = significantBin live background i := by
  simp [significantBin, readBin]

theorem significantBin_nil_right (live : List ℚ) (i : Nat) :
    significantBin live [] i = false := by
  unfold significantBin readBin
  cases h : live[i]? <;> simp [Num.sub]

/-- The bins the loop counts over the live spectrum are the significant
deltas of the specification; a profile of another length is cut or padded
with bins that never count. -/
theorem countP_significantBin (live profile : List ℚ) :
    (List.range live.length).countP (significantBin live (profile.map some)) =
      specSignificantCount 6 live profile := by
  unfold specSignificantCount
  induction live generalizing profile with
  | nil => simp
  | cons l live ih =>
    cases profile with
    | nil =>
      simp only [List.map_nil, List.zipWith_nil_right, List.countP_nil]
      rw [List.countP_eq_zero]
      intro i _
      simp [significantBin_nil_right]
    | cons p profile =>
      rw [List.length_cons, List.range_succ_eq_map, List.countP_cons, List.countP_map,
        List.zipWith_cons_cons, List.countP_cons, ← ih profile, significantBin_zero]
      congr 2
      funext i
      simp only [Function.comp_apply, Nat.succ_eq_add_one, List.map_cons, significantBin_succ]

theorem processLoop_count_eq_spec (live profile : List ℚ) :
    (processLoop live.length live (profile.map some)).significantChanges =
      specSignificantCount 6 live profile := by
  rw [processLoop_significantChanges, countP_significantBin]

theorem specSignificantCount_le_length (t : ℚ) (live profile : List ℚ) :
    specSignificantCount t live profile ≤ live.length := by
  unfold specSignificantCount
  refine le_trans (List.countP_le_length _) ?_
  simp

theorem significantBin_eq (live profile : List ℚ) (i : Nat)
    (hi : i < live.length) (hp : i < profile.length) :
    significantBin live (profile.map some) i = decide (live[i] - profile[i] > 6) := by
  simp [significantBin, readBin, Num.sub, List.getElem?_eq_getElem hi,
    List.getElem?_eq_getElem hp]

theorem processBin_eq (live profile : List ℚ) (acc : LoopAcc) (i : Nat)
    (hi : i < live.length) (hp : i < profile.length) :
    processBin live (profile.map some) acc i =
      if live[i] - profile[i] > 6 then
        ⟨acc.totalChange + (live[i] - profile[i]), acc.significantChanges + 1⟩
      else acc := by
  simp [processBin, readBin, Num.sub, List.getElem?_eq_getElem hi,
    List.getElem?_eq_getElem hp]

/-! ## The gain as a function of the count -/

theorem gainValue_ge (c n : Nat) : 1 / 10 ≤ gainValue c n := by
  unfold gainValue
  simp only
  split
  · rename_i h
    refine le_min (by norm_num) ?_
    linarith
  · exact le_rfl

theorem gainValue_le_one (c n : Nat) : gainValue c n ≤ 1 := by
  unfold gainValue
  simp only
  split
  · exact min_le_left _ _
  · norm_num

theorem gainValue_mono (c c' n : Nat) (h : c ≤ c') : gainValue c n ≤ gainValue c' n := by
  have hr : (c : ℚ) / (n : ℚ) ≤ (c' : ℚ) / (n : ℚ) :=
    div_le_div_of_nonneg_right (by exact_mod_cast h) (Nat.cast_nonneg n)
  by_cases hc : (c : ℚ) / (n : ℚ) > 1 / 10
  · have hc' : (c' : ℚ) / (n : ℚ) > 1 / 10 := lt_of_lt_of_le hc hr
    unfold gainValue
    simp only [hc, hc', if_true]
    exact min_le_min le_rfl (by linarith)
  · have : gainValue c n = 1 / 10 := by
      unfold gainValue
      simp only [hc, if_false]
    rw [this]
    exact gainValue_ge c' n

theorem gainValue_eq_spec (c n : Nat) :
    gainValue c n =
      if (c : ℚ) / (n : ℚ) ≤ 1 / 10 then 1 / 10 else min 1 ((c : ℚ) / (n : ℚ) * 3) := by
  unfold gainValue
  simp only
  by_cases h : (c : ℚ) / (n : ℚ) > 1 / 10
  · rw [if_pos h, if_neg (not_le.mpr h)]
  · rw [if_neg h, if_pos (not_lt.mp h)]

theorem gainValue_full (n : Nat) (hn : 0 < n) : gainValue n n = 1 := by
  have hn' : (n : ℚ) ≠ 0 := by exact_mod_cast hn.ne'
  unfold gainValue
  simp only [div_self hn']
  norm_num

theorem gainValue_zero (n : Nat) : gainValue 0 n = 1 / 10 := by
  unfold gainValue
  simp

theorem processLoop_all_significant (live profile : List ℚ)
    (h : live.length = profile.length)
    (hall : ∀ (i : Nat) (hi : i < live.length) (hp : i < profile.length),
      live[i] - profile[i] > 6) :
    (processLoop live.length live (profile.map some)).significantChanges = live.length := by
  rw [processLoop_significantChanges]
  have hlen : (List.range live.length).length = live.length := List.length_range _
  conv_rhs => rw [← hlen]
  rw [List.countP_eq_length]
  intro i hi
  have hi' : i < live.length := List.mem_range.mp hi
  rw [significantBin_eq live profile i hi' (h ▸ hi')]
  exact decide_eq_true (hall i hi' (h ▸ hi'))

theorem processLoop_none_significant (live profile : List ℚ)
    (h : live.length = profile.length)
    (hall : ∀ (i : Nat) (hi : i < live.length) (hp : i < profile.length),
      ¬ live[i] - profile[i] > 6) :
    (processLoop live.length live (profile.map some)).significantChanges = 0 := by
  rw [processLoop_significantChanges, List.countP_eq_zero]
  intro i hi
  have hi' : i < live.length := List.mem_range.mp hi
  rw [significantBin_eq live profile i hi' (h ▸ hi')]
  simpa using hall i hi' (h ▸ hi')

theorem processLoop_mono (a b profile : List ℚ)
    (ha : a.length = profile.length) (hb : b.length = profile.length)
    (hab : ∀ (i : Nat) (hi : i < a.length) (hj : i < b.length), a[i] ≤ b[i]) :
    (processLoop a.length a (profile.map some)).significantChanges ≤
      (processLoop b.length b (profile.map some)).significantChanges := by
  rw [processLoop_significantChanges, processLoop_significantChanges, hb, ← ha]
  apply List.countP_mono_left
  intro i hi
  have hia : i < a.length := List.mem_range.mp hi
  have hib : i < b.length := by rw [hb, ← ha]; exact hia
  have hip : i < profile.length := ha ▸ hia
  rw [significantBin_eq a profile i hia hip, significantBin_eq b profile i hib hip]
  intro hsig
  have h6 : a[i] - profile[i] > 6 := of_decide_eq_true hsig
  have hle := hab i hia hib
  exact decide_eq_true (by linarith)

/-! ## The rounding is the nearest multiple of the quantum -/

theorem floorLog2_eq_log (fuel : Nat) : ∀ n : Nat, n ≤ fuel → floorLog2 fuel n = Nat.log 2 n := by
  induction fuel with
  | zero =>
    intro n hn
    have : n = 0 := by omega
    subst this
    simp [floorLog2]
  | succ fuel ih =>
    intro n hn
    unfold floorLog2
    by_cases h2 : n < 2
    · rw [if_pos h2, Nat.log_of_lt h2]
    · have hle : 2 ≤ n := by omega
      have hhalf : n / 2 ≤ fuel := by omega
      rw [if_neg h2, Nat.log_of_one_lt_of_le (by decide) hle, ih (n / 2) hhalf]

/-- The exponent computed from numerator and denominator is the integer
logarithm of base 2. -/
theorem binaryExponent_eq_log (q : ℚ) (hq : q ≠ 0) : binaryExponent q = Int.log 2 |q| := by
  have hpos : 0 < |q| := abs_pos.mpr hq
  have ha : q.num.natAbs ≠ 0 := by simpa using hq
  have hb : q.den ≠ 0 := q.den_nz
  have habs : |q| = (q.num.natAbs : ℚ) / (q.den : ℚ) := by
    conv_lhs => rw [← Rat.num_div_den q]
    rw [abs_div, Nat.abs_cast, Nat.cast_natAbs, Int.cast_abs]
  have hapos : (0 : ℚ) < (q.num.natAbs : ℚ) := by exact_mod_cast Nat.pos_of_ne_zero ha
  have hbpos : (0 : ℚ) < (q.den : ℚ) := by exact_mod_cast q.den_pos
  have ha1 : ((2 : ℚ) ^ Nat.log 2 q.num.natAbs) ≤ (q.num.natAbs : ℚ) := by
    exact_mod_cast Nat.pow_log_le_self 2 ha
  have ha2 : (q.num.natAbs : ℚ) < (2 : ℚ) ^ (Nat.log 2 q.num.natAbs + 1) := by
    exact_mod_cast Nat.lt_pow_succ_log_self (by decide : 1 < 2) q.num.natAbs
  have hb1 : ((2 : ℚ) ^ Nat.log 2 q.den) ≤ (q.den : ℚ) := by
    exact_mod_cast Nat.pow_log_le_self 2 hb
  have hb2 : (q.den : ℚ) < (2 : ℚ) ^ (Nat.log 2 q.den + 1) := by
    exact_mod_cast Nat.lt_pow_succ_log_self (by decide : 1 < 2) q.den
  have h2 : (0 : ℚ) < 2 := by norm_num
  have hupper : |q| < (2 : ℚ) ^ (((Nat.log 2 q.num.natAbs : ℤ) - (Nat.log 2 q.den : ℤ)) + 1) := by
    have hrw : (2 : ℚ) ^ (((Nat.log 2 q.num.natAbs : ℤ) - (Nat.log 2 q.den : ℤ)) + 1) =
        (2 : ℚ) ^ (Nat.log 2 q.num.natAbs + 1) / (2 : ℚ) ^ Nat.log 2 q.den := by
      rw [show ((Nat.log 2 q.num.natAbs : ℤ) - (Nat.log 2 q.den : ℤ)) + 1 =
        ((Nat.log 2 q.num.natAbs + 1 : ℕ) : ℤ) - ((Nat.log 2 q.den : ℕ) : ℤ) by push_cast; ring,
        zpow_sub₀ (two_ne_zero), zpow_natCast, zpow_natCast]
    rw [hrw, habs, div_lt_div_iff₀ hbpos (pow_pos h2 _)]
    calc (q.num.natAbs : ℚ) * 2 ^ Nat.log 2 q.den
        ≤ (q.num.natAbs : ℚ) * (q.den : ℚ) := by
          exact mul_le_mul_of_nonneg_left hb1 hapos.le
      _ < 2 ^ (Nat.log 2 q.num.natAbs + 1) * (q.den : ℚ) := by
          exact mul_lt_mul_of_pos_right ha2 hbpos
  have hlower : (2 : ℚ) ^ (((Nat.log 2 q.num.natAbs : ℤ) - (Nat.log 2 q.den : ℤ)) - 1) ≤ |q| := by
    have hrw : (2 : ℚ) ^ (((Nat.log 2 q.num.natAbs : ℤ) - (Nat.log 2 q.den : ℤ)) - 1) =
        (2 : ℚ) ^ Nat.log 2 q.num.natAbs / (2 : ℚ) ^ (Nat.log 2 q.den + 1) := by
      rw [show ((Nat.log 2 q.num.natAbs : ℤ) - (Nat.log 2 q.den : ℤ)) - 1 =
        ((Nat.log 2 q.num.natAbs : ℕ) : ℤ) - ((Nat.log 2 q.den + 1 : ℕ) : ℤ) by push_cast; ring,
        zpow_sub₀ (two_ne_zero), zpow_natCast, zpow_natCast]
    rw [hrw, habs, div_le_div_iff₀ (pow_pos h2 _) hbpos]
    calc (2 : ℚ) ^ Nat.log 2 q.num.natAbs * (q.den : ℚ)
        ≤ (q.num.natAbs : ℚ) * (q.den : ℚ) := by
          exact mul_le_mul_of_nonneg_right ha1 hbpos.le
      _ ≤ (q.num.natAbs : ℚ) * 2 ^ (Nat.log 2 q.den + 1) := by
          exact mul_le_mul_of_nonneg_left hb2.le hapos.le
  have hcast : ((2 : ℕ) : ℚ) = 2 := by norm_num
  unfold binaryExponent
  simp only [floorLog2_eq_log _ _ le_rfl]
  split
  · rename_i hle
    have hge : ((Nat.log 2 q.num.natAbs : ℤ) - (Nat.log 2 q.den : ℤ)) ≤ Int.log 2 |q| := by
      rw [← Int.zpow_le_iff_le_log (by decide : 1 < 2) hpos, hcast]
      exact hle
    have hlt : Int.log 2 |q| < ((Nat.log 2 q.num.natAbs : ℤ) - (Nat.log 2 q.den : ℤ)) + 1 := by
      rw [← Int.lt_zpow_iff_log_lt (by decide : 1 < 2) hpos, hcast]
      exact hupper
    omega
  · rename_i hnle
    have hge : ((Nat.log 2 q.num.natAbs : ℤ) - (Nat.log 2 q.den : ℤ)) - 1 ≤ Int.log 2 |q| := by
      rw [← Int.zpow_le_iff_le_log (by decide : 1 < 2) hpos, hcast]
      exact hlower
    have hlt : Int.log 2 |q| < ((Nat.log 2 q.num.natAbs : ℤ) - (Nat.log 2 q.den : ℤ)) := by
      rw [← Int.lt_zpow_iff_log_lt (by decide : 1 < 2) hpos, hcast]
      exact not_le.mp hnle
    omega

/-- The rounded integer is within a half of the number. -/
theorem abs_sub_roundHalfEven_le (x : ℚ) : |x - (roundHalfEven x : ℚ)| ≤ 1 / 2 := by
  have h1 : ((⌊x⌋ : ℤ) : ℚ) ≤ x := Int.floor_le x
  have h2 : x < ((⌊x⌋ : ℤ) : ℚ) + 1 := Int.lt_floor_add_one x
  unfold roundHalfEven
  simp only
  rw [abs_le]
  split_ifs with ha hb hc
  · constructor <;> linarith
  · push_cast
    constructor <;> linarith
  · constructor <;> linarith
  · push_cast
    constructor <;> linarith

/-- A finite result of the rounding is a multiple of the quantum of the
exponent of `q`, at most half a quantum away from `q`. -/
theorem roundBinary_spec (p : Nat) (emin emax : ℤ) (q r : ℚ) (hq : q ≠ 0)
    (h : roundBinary p emin emax q = some r) :
    (∃ n : ℤ, r = (n : ℚ) * (2 : ℚ) ^ (max (Int.log 2 |q|) emin - ((p : ℤ) - 1))) ∧
      |q - r| ≤ (2 : ℚ) ^ (max (Int.log 2 |q|) emin - ((p : ℤ) - 1)) / 2 := by
  unfold roundBinary at h
  rw [if_neg hq, binaryExponent_eq_log q hq] at h
  simp only at h
  split at h
  · simp only [Option.some.injEq] at h
    have hpos : (0 : ℚ) < (2 : ℚ) ^ (max (Int.log 2 |q|) emin - ((p : ℤ) - 1)) :=
      zpow_pos (by norm_num) _
    refine ⟨⟨_, h.symm⟩, ?_⟩
    rw [← h]
    have hround := abs_sub_roundHalfEven_le
      (q / (2 : ℚ) ^ (max (Int.log 2 |q|) emin - ((p : ℤ) - 1)))
    have hfactor : q - (roundHalfEven (q / (2 : ℚ) ^ (max (Int.log 2 |q|) emin - ((p : ℤ) - 1))) : ℚ) *
        (2 : ℚ) ^ (max (Int.log 2 |q|) emin - ((p : ℤ) - 1)) =
        (q / (2 : ℚ) ^ (max (Int.log 2 |q|) emin - ((p : ℤ) - 1)) -
          (roundHalfEven (q / (2 : ℚ) ^ (max (Int.log 2 |q|) emin - ((p : ℤ) - 1))) : ℚ)) *
        (2 : ℚ) ^ (max (Int.log 2 |q|) emin - ((p : ℤ) - 1)) := by
      field_simp
      ring
    rw [hfactor, abs_mul, abs_of_pos hpos]
    calc _ ≤ 1 / 2 * (2 : ℚ) ^ (max (Int.log 2 |q|) emin - ((p : ℤ) - 1)) :=
          mul_le_mul_of_nonneg_right hround hpos.le
      _ = _ := by ring
  · simp at h

/-! ## The averaging of the calibration -/

theorem readBin_map_range (N : Nat) (g : Nat → Num) (i : Nat) (hi : i < N) :
    readBin ((List.range N).map g) i = g i := by
  simp [readBin, hi]

theorem addSample_reading (N : Nat) (g : Nat → Num) (reading : Nat → ℚ) :
    addSample N ((List.range N).map g) (getFloatFrequencyData reading N) =
      (List.range N).map (fun j => storeFloat32 (Num.add (g j) (some (reading j)))) := by
  unfold addSample
  apply List.map_congr_left
  intro i hi
  have hi' : i < N := List.mem_range.mp hi
  rw [readBin_map_range N g i hi']
  simp [getFloatFrequencyData, hi']

theorem foldl_addSample_readings (N : Nat) (readings : List (Nat → ℚ)) (g : Nat → Num) :
    (readings.map (fun r => getFloatFrequencyData r N)).foldl (addSample N)
        ((List.range N).map g) =
      (List.range N).map (fun j =>
        (readings.map (fun r => r j)).foldl
          (fun cell x => storeFloat32 (Num.add cell (some x))) (g j)) := by
  induction readings generalizing g with
  | nil => simp
  | cons r rest ih =>
    rw [List.map_cons, List.foldl_cons, addSample_reading, ih]
    simp

/-- The profile computed from samples read off the analyser is, bin by bin,
the float32 mean of the readings of that bin. -/
theorem averageSamples_readings (N : Nat) (readings : List (Nat → ℚ)) :
    averageSamples N (readings.map (fun r => getFloatFrequencyData r N)) =
      (List.range N).map (fun i => float32Mean (readings.map (fun r => r i))) := by
  unfold averageSamples float32Mean
  have hzero : List.replicate N (some (0 : ℚ)) =
      (List.range N).map (fun _ => (some (0 : ℚ) : Num)) := by
    simp
  simp only [hzero, List.length_map]
  rw [foldl_addSample_readings N readings (fun _ => some 0)]
  apply List.map_congr_left
  intro i hi
  have hi' : i < N := List.mem_range.mp hi
  rw [readBin_map_range N _ i hi']

theorem averageSamples_length (N : Nat) (samples : List (List ℚ)) :
    (averageSamples N samples).length = N := by
  simp [averageSamples]

/-- When the multiples `k`, `2 k`, ... up to `n k` are stored unchanged in a
float32 cell, adding `k` to the cell `m ≤ n` times gives `m k`. -/
theorem foldl_store_replicate (k : ℚ) (n : Nat)
    (hk : ∀ j : Nat, 1 ≤ j → j ≤ n → storeFloat32 (some ((j : ℚ) * k)) = some ((j : ℚ) * k)) :
    ∀ m : Nat, m ≤ n →
      (List.replicate m k).foldl (fun cell x => storeFloat32 (Num.add cell (some x))) (some 0) =
        some ((m : ℚ) * k) := by
  intro m
  induction m with
  | zero => intro _; simp
  | succ m ih =>
    intro hm
    rw [List.replicate_succ', List.foldl_append, ih (by omega)]
    have h := hk (m + 1) (by omega) hm
    have hsum : (m : ℚ) * k + k = ((m + 1 : Nat) : ℚ) * k := by push_cast; ring
    simp only [List.foldl_cons, List.foldl_nil, Num.add, hsum]
    exact h

theorem float32Mean_replicate (k : ℚ) (n : Nat) (hn : 0 < n)
    (hk : ∀ j : Nat, 1 ≤ j → j ≤ n → storeFloat32 (some ((j : ℚ) * k)) = some ((j : ℚ) * k)) :
    float32Mean (List.replicate n k) = some k := by
  unfold float32Mean
  rw [foldl_store_replicate k n hk n le_rfl, List.length_replicate]
  have hn' : (n : ℚ) ≠ 0 := by exact_mod_cast hn.ne'
  have hdiv : (n : ℚ) * k / (n : ℚ) = k := by field_simp
  have h1 := hk 1 (le_refl 1) hn
  simp only [Nat.cast_one, one_mul] at h1
  simp only [Num.divLength, hn.ne', if_false, hdiv]
  exact h1

/-! ## The calibration chain -/

theorem run_nil (s : State) : run s [] = s := rfl

theorem run_cons (s : State) (e : Event) (events : List Event) :
    run s (e :: events) = run (step s e) events := rfl

theorem run_append (s : State) (events events' : List Event) :
    run s (events ++ events') = run (run s events) events' := by
  unfold run
  rw [List.foldl_append]

theorem calibrateBackground_eq (s : State) (reading : Nat → ℚ) (ha : s.analyser = true) :
    calibrateBackground s reading =
      { s with
        isCalibrating := true
        timers := s.timers ++ [⟨[getFloatFrequencyData reading frequencyBinCount], 1⟩] } := by
  simp [calibrateBackground, captureSample, ha, totalSamples]

theorem step_timeout_capture (s : State) (samples : List (List ℚ)) (k : Nat)
    (rest : List CaptureTimer) (reading : Nat → ℚ)
    (ht : s.timers = ⟨samples, k⟩ :: rest) (hk : k < totalSamples) :
    step s (Event.timeout reading) =
      { s with
        timers := rest ++
          [⟨samples ++ [getFloatFrequencyData reading frequencyBinCount], k + 1⟩] } := by
  simp [step, ht, captureSample, Nat.not_le.mpr hk]

theorem step_timeout_install (s : State) (samples : List (List ℚ)) (k : Nat)
    (rest : List CaptureTimer) (reading : Nat → ℚ)
    (ht : s.timers = ⟨samples, k⟩ :: rest) (hk : totalSamples ≤ k) :
    step s (Event.timeout reading) =
      { s with
        timers := rest
        noiseProfile := some (averageSamples frequencyBinCount samples)
        backgroundData := some (averageSamples frequencyBinCount samples)
        isCalibrating := false } := by
  simp [step, ht, captureSample, hk]

/-- A calibration that is alone in the timer queue captures one sample per
timeout as long as its count stays within `totalSamples`. -/
theorem run_timeouts (readings : List (Nat → ℚ)) :
    ∀ (s : State) (samples : List (List ℚ)) (k : Nat),
      s.timers = [⟨samples, k⟩] → k + readings.length ≤ totalSamples →
      run s (readings.map Event.timeout) =
        { s with
          timers := [⟨samples ++ readings.map (fun r => getFloatFrequencyData r frequencyBinCount),
            k + readings.length⟩] } := by
  induction readings with
  | nil =>
    intro s samples k ht _
    cases s
    simp_all [run_nil]
  | cons r rest ih =>
    intro s samples k ht hk
    have hk' : k < totalSamples := by
      simp only [List.length_cons] at hk
      omega
    rw [List.map_cons, run_cons, step_timeout_capture s samples k [] r ht hk']
    rw [ih _ (samples ++ [getFloatFrequencyData r frequencyBinCount]) (k + 1) rfl
      (by simp only [List.length_cons] at hk; omega)]
    simp [Nat.add_assoc, Nat.add_comm 1]

theorem stopRecording_timers (s : State) : (stopRecording s).timers = s.timers := rfl

theorem stopRecording_backgroundData (s : State) : (stopRecording s).backgroundData = none := rfl

theorem step_startRecording (s : State) (reading : Nat → ℚ) :
    step s (Event.startRecording reading) = startRecording s reading := rfl

theorem step_stopRecording (s : State) : step s Event.stopRecording = stopRecording s := rfl

theorem step_calibrateBackground (s : State) (reading : Nat → ℚ) :
    step s (Event.calibrateBackground reading) = calibrateBackground s reading := rfl

/-- A calibration alone in the timer queue runs to its end across a
`stopRecording`: the timers are not cleared, and the profile is installed by
the timeout that finds the count at `totalSamples`. -/
theorem calibration_survives_stop (s : State) (r0 rLast : Nat → ℚ)
    (pre post : List (Nat → ℚ)) (ha : s.analyser = true) (ht : s.timers = [])
    (hlen : 1 + pre.length + post.length = totalSamples) :
    (run s ([Event.calibrateBackground r0] ++ pre.map Event.timeout ++ [Event.stopRecording] ++
        post.map Event.timeout ++ [Event.timeout rLast])).backgroundData =
      some (averageSamples frequencyBinCount
        ((r0 :: (pre ++ post)).map (fun r => getFloatFrequencyData r frequencyBinCount))) ∧
    (run s ([Event.calibrateBackground r0] ++ pre.map Event.timeout ++ [Event.stopRecording] ++
        post.map Event.timeout ++ [Event.timeout rLast])).isRecording = false := by
  rw [run_append, run_append, run_append, run_append]
  simp only [run_cons, run_nil, step_stopRecording, step_calibrateBackground]
  rw [calibrateBackground_eq s r0 ha, ht]
  rw [run_timeouts pre _ [getFloatFrequencyData r0 frequencyBinCount] 1 rfl (by omega)]
  rw [run_timeouts post _
    ([getFloatFrequencyData r0 frequencyBinCount] ++
      pre.map (fun r => getFloatFrequencyData r frequencyBinCount)) (1 + pre.length) rfl
    (by omega)]
  rw [step_timeout_install _ _ (1 + pre.length + post.length) [] rLast rfl (by omega)]
  simp [stopRecording]

/-! ## Animation frames during a calibration -/

theorem step_animationFrame_timers (s : State) (reading : Nat → ℚ) :
    (step s (Event.animationFrame reading)).timers = s.timers := by
  unfold step
  cases s.frames <;> rfl

theorem step_animationFrame_backgroundData (s : State) (reading : Nat → ℚ) :
    (step s (Event.animationFrame reading)).backgroundData = s.backgroundData := by
  unfold step
  cases s.frames <;> rfl

theorem step_animationFrame_noiseProfile (s : State) (reading : Nat → ℚ) :
    (step s (Event.animationFrame reading)).noiseProfile = s.noiseProfile := by
  unfold step
  cases s.frames <;> rfl

/-- A calibration that is alone in the timer queue captures one sample per
timeout, whatever animation frames run in between, as long as its count
stays within `totalSamples`; nothing is installed meanwhile. -/
theorem run_capture (events : List Event) :
    ∀ (s : State) (samples : List (List ℚ)) (k : Nat),
      s.timers = [⟨samples, k⟩] → (∀ e ∈ events, e.isCallback = true) →
      k + (events.filterMap Event.captured).length ≤ totalSamples →
      (run s events).timers =
          [⟨samples ++ (events.filterMap Event.captured).map
              (fun r => getFloatFrequencyData r frequencyBinCount),
            k + (events.filterMap Event.captured).length⟩] ∧
        (run s events).backgroundData = s.backgroundData ∧
        (run s events).noiseProfile = s.noiseProfile := by
  induction events with
  | nil =>
    intro s samples k ht _ _
    simp [run_nil, ht, Event.captured]
  | cons e rest ih =>
    intro s samples k ht hev hk
    have hrest : ∀ e' ∈ rest, e'.isCallback = true :=
      fun e' he' => hev e' (List.mem_cons_of_mem e he')
    have he := hev e (List.mem_cons_self e rest)
    rw [run_cons]
    cases e with
    | startRecording r => simp [Event.isCallback] at he
    | stopRecording => simp [Event.isCallback] at he
    | calibrateBackground r => simp [Event.isCallback] at he
    | timeout r =>
      have hfm : (Event.timeout r :: rest).filterMap Event.captured =
          r :: rest.filterMap Event.captured := by
        simp [List.filterMap_cons, Event.captured]
      rw [hfm] at hk ⊢
      simp only [List.length_cons] at hk
      rw [step_timeout_capture s samples k [] r ht (by omega)]
      obtain ⟨h1, h2, h3⟩ := ih { s with
          timers := [] ++ [⟨samples ++ [getFloatFrequencyData r frequencyBinCount], k + 1⟩] }
        (samples ++ [getFloatFrequencyData r frequencyBinCount]) (k + 1) rfl hrest (by omega)
      refine ⟨?_, h2, h3⟩
      rw [h1]
      simp [Nat.add_assoc, Nat.add_comm 1]
    | animationFrame r =>
      have hfm : (Event.animationFrame r :: rest).filterMap Event.captured =
          rest.filterMap Event.captured := by
        simp [List.filterMap_cons, Event.captured]
      rw [hfm] at hk ⊢
      obtain ⟨h1, h2, h3⟩ := ih (step s (Event.animationFrame r)) samples k
        (by rw [step_animationFrame_timers, ht]) hrest hk
      exact ⟨h1, by rw [h2, step_animationFrame_backgroundData],
        by rw [h3, step_animationFrame_noiseProfile]⟩

/-- A calibration started with an analyser and no other calibration pending:
after `calibrateBackground` and any timeouts and animation frames of which 19
are timeouts, the timer holds the 20 captured spectra and nothing is
installed; the next timeout installs their average. -/
theorem calibration_run (s : State) (r0 rLast : Nat → ℚ) (events : List Event)
    (ha : s.analyser = true) (ht : s.timers = [])
    (hev : ∀ e ∈ events, e.isCallback = true)
    (hcount : (events.filterMap Event.captured).length = 19) :
    (run s (Event.calibrateBackground r0 :: events)).timers =
        [⟨(r0 :: events.filterMap Event.captured).map
          (fun r => getFloatFrequencyData r frequencyBinCount), 20⟩] ∧
      (run s (Event.calibrateBackground r0 :: events)).backgroundData = s.backgroundData ∧
      (step (run s (Event.calibrateBackground r0 :: events)) (Event.timeout rLast)).timers = [] ∧
      (step (run s (Event.calibrateBackground r0 :: events))
          (Event.timeout rLast)).backgroundData =
        some (averageSamples frequencyBinCount
          ((r0 :: events.filterMap Event.captured).map
            (fun r => getFloatFrequencyData r frequencyBinCount))) ∧
      (step (run s (Event.calibrateBackground r0 :: events))
          (Event.timeout rLast)).noiseProfile =
        some (averageSamples frequencyBinCount
          ((r0 :: events.filterMap Event.captured).map
            (fun r => getFloatFrequencyData r frequencyBinCount))) := by
  rw [run_cons, step_calibrateBackground, calibrateBackground_eq s r0 ha, ht]
  obtain ⟨h1, h2, _⟩ := run_capture events
    { s with
      isCalibrating := true
      timers := [] ++ [⟨[getFloatFrequencyData r0 frequencyBinCount], 1⟩] }
    [getFloatFrequencyData r0 frequencyBinCount] 1 rfl hev (by rw [hcount]; decide)
  rw [hcount] at h1
  have htimers : (run { s with
      isCalibrating := true
      timers := [] ++ [⟨[getFloatFrequencyData r0 frequencyBinCount], 1⟩] } events).timers =
      [⟨(r0 :: events.filterMap Event.captured).map
        (fun r => getFloatFrequencyData r frequencyBinCount), 20⟩] := by
    rw [h1]
    simp
  refine ⟨htimers, h2, ?_, ?_, ?_⟩ <;>
    rw [step_timeout_install _ _ 20 [] rLast htimers (by decide)]

/-! ## The profile has the analyser's bin count on every run -/

theorem step_backgroundData_length (s : State) (e : Event)
    (h : ∀ profile, s.backgroundData = some profile → profile.length = frequencyBinCount) :
    ∀ profile, (step s e).backgroundData = some profile →
      profile.length = frequencyBinCount := by
  intro profile hp
  cases e with
  | startRecording r =>
    refine h profile ?_
    rw [← hp]
    simp only [step, startRecording, processAudio]
    split <;> rfl
  | stopRecording => simp [step, stopRecording] at hp
  | calibrateBackground r =>
    refine h profile ?_
    rw [← hp]
    simp only [step, calibrateBackground, captureSample]
    split
    · rfl
    · simp [totalSamples]
  | timeout r =>
    simp only [step] at hp
    split at hp
    · exact h profile hp
    · simp only [captureSample] at hp
      split at hp
      · simp only [Option.some.injEq] at hp
        rw [← hp, averageSamples_length]
      · exact h profile hp
  | animationFrame r =>
    rw [step_animationFrame_backgroundData] at hp
    exact h profile hp

/-- Every profile the component installs has `frequencyBinCount` bins, the
length of every live spectrum `process` compares it with: a live spectrum and
a stored profile of different lengths do not occur on any run. -/
theorem run_backgroundData_length (events : List Event) :
    ∀ (profile : List Num), (run State.initial events).backgroundData = some profile →
      profile.length = (getFloatFrequencyData (fun _ => 0) frequencyBinCount).length := by
  have hgen : ∀ (events : List Event) (s : State),
      (∀ profile, s.backgroundData = some profile → profile.length = frequencyBinCount) →
      ∀ profile, (run s events).backgroundData = some profile →
        profile.length = frequencyBinCount := by
    intro events
    induction events with
    | nil => intro s h; simpa [run_nil] using h
    | cons e rest ih =>
      intro s h
      rw [run_cons]
      exact ih (step s e) (step_backgroundData_length s e h)
  intro profile hp
  rw [hgen events State.initial (by intro p hp0; simp [State.initial] at hp0) profile hp]
  simp [getFloatFrequencyData]

/-! ## The gain without a profile on a run -/

theorem step_gainNode_without_profile (s : State) (e : Event)
    (h : s.backgroundData = none) :
    (step s e).gainNode = if e.isStart then some 1 else s.gainNode := by
  cases e with
  | startRecording r =>
    simp [step, Event.isStart, startRecording, processAudio, process, processStep, h, createGain]
  | stopRecording => simp [step, Event.isStart, stopRecording]
  | calibrateBackground r =>
    simp only [step, Event.isStart, calibrateBackground, captureSample]
    split
    · rfl
    · split <;> rfl
  | timeout r =>
    simp only [step, Event.isStart]
    split
    · rfl
    · simp only [captureSample]
      split <;> rfl
  | animationFrame r =>
    simp only [step, Event.isStart]
    split
    · rfl
    · cases hg : s.gainNode <;> simp [process, processStep, h, hg]

theorem run_gainNode_without_profile (events : List Event) :
    ∀ (s : State),
      (∀ k : Nat, k ≤ events.length → (run s (events.take k)).backgroundData = none) →
      (run s events).gainNode = if events.any Event.isStart then some 1 else s.gainNode := by
  induction events with
  | nil => intro s _; simp [run_nil]
  | cons e rest ih =>
    intro s h
    have h0 : s.backgroundData = none := by
      have := h 0 (Nat.zero_le _)
      simpa [run_nil] using this
    have hrest : ∀ k : Nat, k ≤ rest.length →
        (run (step s e) (rest.take k)).backgroundData = none := by
      intro k hk
      have := h (k + 1) (by simp only [List.length_cons]; omega)
      simpa [List.take_succ_cons, run_cons] using this
    rw [run_cons, ih (step s e) hrest, step_gainNode_without_profile s e h0]
    cases hs : e.isStart <;> cases hr : rest.any Event.isStart <;> simp [List.any_cons, hs, hr]

/-! ## The gain decision: claims C1, C3, C7, C8, C9, C10 -/

/-- C1: for a live spectrum and a noise profile of the same length `n > 0`,
the gain a `process` step sets is the gain of the specification's algorithm
with the default tunables (threshold 6, minimal ratio 0.1, floor 0.1,
multiplier 3), whatever the gain was before; it depends on the count of
significant bins only, not on `totalChange`. -/
theorem process_gain_eq_specComputeGain (live profile : List ℚ) (n : Nat) (gain : ℚ)
    (hl : live.length = n) (hp : profile.length = n) (hn : 0 < n) :
    processStep live (some (profile.map some)) gain =
      specComputeGain live profile 6 (1 / 10) (1 / 10) 3 := by
  have _ := hp
  have _ := hn
  have _ := hl
  simp only [processStep, processGain, specComputeGain]
  rw [processLoop_count_eq_spec, gainValue_eq_spec]

theorem process_gain_eq_specComputeGain_witness :
    [7, 0].length = 2 ∧ [0, (0 : ℚ)].length = 2 ∧ 0 < 2 ∧
      processStep [7, 0] (some ([0, 0].map some)) 1 =
        specComputeGain [7, 0] [0, 0] 6 (1 / 10) (1 / 10) 3 :=
  ⟨rfl, rfl, by decide,
    process_gain_eq_specComputeGain [7, 0] [0, 0] 2 1 rfl rfl (by decide)⟩

/-- C3: for a live spectrum and a noise profile of the same length `n > 0`,
the gain computed by the `process` step lies between the floor 0.1 and 1. -/
theorem processGain_bounds (live profile : List ℚ) (n : Nat)
    (hl : live.length = n) (hp : profile.length = n) (hn : 0 < n) :
    1 / 10 ≤ processGain live (profile.map some) ∧
      processGain live (profile.map some) ≤ 1 := by
  have _ := hp
  have _ := hn
  have _ := hl
  exact ⟨gainValue_ge _ _, gainValue_le_one _ _⟩

theorem processGain_bounds_witness :
    [9, 1, 2].length = 3 ∧ [1, 1, (1 : ℚ)].length = 3 ∧ 0 < 3 ∧
      1 / 10 ≤ processGain [9, 1, 2] ([1, 1, 1].map some) ∧
      processGain [9, 1, 2] ([1, 1, 1].map some) ≤ 1 :=
  ⟨rfl, rfl, by decide, processGain_bounds [9, 1, 2] [1, 1, 1] 3 rfl rfl (by decide)⟩

/-- C7: for a bin count `n > 0` and a count `c` of significant bins, a ratio
`c / n` of exactly 0.1 gives the floor 0.1, and a ratio above 0.1 gives a
gain strictly above 0.1. -/
theorem gainValue_changeRatio_boundary (c n : Nat) (hn : 0 < n) :
    ((c : ℚ) / (n : ℚ) = 1 / 10 → gainValue c n = 1 / 10) ∧
      ((c : ℚ) / (n : ℚ) > 1 / 10 → gainValue c n > 1 / 10) := by
  have _ := hn
  constructor
  · intro h
    unfold gainValue
    simp only [h, lt_irrefl, if_false, gt_iff_lt]
  · intro h
    unfold gainValue
    simp only [h, if_true]
    refine lt_min (by norm_num) ?_
    linarith

theorem gainValue_changeRatio_boundary_witness :
    0 < 10 ∧ gainValue 1 10 = 1 / 10 ∧ gainValue 2 10 > 1 / 10 :=
  ⟨by decide,
    (gainValue_changeRatio_boundary 1 10 (by decide)).1 (by norm_num),
    (gainValue_changeRatio_boundary 2 10 (by decide)).2 (by norm_num)⟩

/-- C8: a bin whose difference `live[i] - profile[i]` is exactly 6 leaves the
loop's accumulators as they are, a bin whose difference is `6 + e` with
`e > 0` is counted, and over spectra of equal length the loop's count is the
number of bins whose difference is strictly greater than 6. -/
theorem threshold_boundary (live profile : List ℚ) (h : live.length = profile.length) :
    (∀ (i : Nat) (hi : i < live.length) (hp : i < profile.length) (acc : LoopAcc),
        (live[i] - profile[i] = 6 → processBin live (profile.map some) acc i = acc) ∧
        (∀ e : ℚ, 0 < e → live[i] - profile[i] = 6 + e →
          (processBin live (profile.map some) acc i).significantChanges =
            acc.significantChanges + 1)) ∧
      (processLoop live.length live (profile.map some)).significantChanges =
        (List.zipWith (fun l p => l - p) live profile).countP (fun d => d > 6) := by
  have _ := h
  refine ⟨?_, processLoop_count_eq_spec live profile⟩
  intro i hi hp acc
  rw [processBin_eq live profile acc i hi hp]
  constructor
  · intro h6
    rw [h6]
    simp
  · intro e he h6
    rw [h6, if_pos (by linarith)]

theorem threshold_boundary_witness :
    [6, (13 / 2 : ℚ)].length = [0, (0 : ℚ)].length ∧
      (processLoop [6, (13 / 2 : ℚ)].length [6, 13 / 2] ([0, 0].map some)).significantChanges =
        (List.zipWith (fun l p => l - p) [6, (13 / 2 : ℚ)] [0, 0]).countP (fun d => d > 6) :=
  ⟨rfl, (threshold_boundary [6, 13 / 2] [0, 0] rfl).2⟩

/-- C9: when every bin of the live spectrum exceeds the profile by more than
6 (change ratio 1) over `n > 0` bins, the gain is exactly 1 and not 3; a
64-bin all-zero profile gives gain 1 against a live spectrum of all 10 and
the floor 0.1 against an all-zero live spectrum. -/
theorem ceiling_clamp :
    (∀ (live profile : List ℚ), live.length = profile.length → 0 < live.length →
        (∀ (i : Nat) (hi : i < live.length) (hp : i < profile.length),
          live[i] - profile[i] > 6) →
        processGain live (profile.map some) = 1) ∧
      processGain (List.replicate 64 10) ((List.replicate 64 0).map some) = 1 ∧
      processGain (List.replicate 64 0) ((List.replicate 64 0).map some) = 1 / 10 := by
  have hgen : ∀ (live profile : List ℚ), live.length = profile.length → 0 < live.length →
      (∀ (i : Nat) (hi : i < live.length) (hp : i < profile.length),
        live[i] - profile[i] > 6) →
      processGain live (profile.map some) = 1 := by
    intro live profile h hn hall
    unfold processGain
    rw [processLoop_all_significant live profile h hall]
    exact gainValue_full _ hn
  refine ⟨hgen, ?_, ?_⟩
  · apply hgen
    · simp
    · simp
    · intro i hi hp
      simp only [List.getElem_replicate]
      norm_num
  · unfold processGain
    rw [processLoop_none_significant]
    · exact gainValue_zero _
    · simp
    · intro i hi hp
      simp only [List.getElem_replicate]
      norm_num

theorem ceiling_clamp_witness :
    [10, (10 : ℚ)].length = [0, (0 : ℚ)].length ∧ 0 < [10, (10 : ℚ)].length ∧
      processGain [10, 10] ([0, 0].map some) = 1 :=
  ⟨rfl, by decide,
    ceiling_clamp.1 [10, 10] [0, 0] rfl (by decide) (by
      intro i hi hp
      have hi2 : i < 2 := hi
      interval_cases i <;> norm_num)⟩

/-- C10: the gain is monotone in the live spectrum: for a noise profile and
two live spectra `a`, `b` of the profile's length with `a[i] ≤ b[i]` at every
bin, the gain computed for `a` is at most the gain computed for `b`. -/
theorem processGain_mono (a b profile : List ℚ)
    (ha : a.length = profile.length) (hb : b.length = profile.length)
    (hab : ∀ (i : Nat) (hi : i < a.length) (hj : i < b.length), a[i] ≤ b[i]) :
    processGain a (profile.map some) ≤ processGain b (profile.map some) := by
  unfold processGain
  rw [hb, ha]
  have hmono := processLoop_mono a b profile ha hb hab
  rw [hb, ha] at hmono
  exact gainValue_mono _ _ _ hmono

theorem processGain_mono_witness :
    [0, (0 : ℚ)].length = [0, (0 : ℚ)].length ∧ [0, (7 : ℚ)].length = [0, (0 : ℚ)].length ∧
      processGain [0, 0] ([0, 0].map some) ≤ processGain [0, 7] ([0, 0].map some) :=
  ⟨rfl, rfl,
    processGain_mono [0, 0] [0, 7] [0, 0] rfl rfl (by
      intro i hi hj
      have hi2 : i < 2 := hi
      interval_cases i <;> norm_num)⟩

/-! ## Calibration: claim C6 -/

/-- The float32 mean of 20 readings that are all the float32 value
-90.0999984741211 is -90.09998321533203: the sums stop being exact at the
third addition. -/
theorem float32Mean_example :
    float32Mean (List.replicate 20 (-11809587 / 131072)) = some (-11809585 / 131072) := by
  have h0 : storeFloat32 (Num.add (some 0) (some (-11809587 / 131072))) = some (-11809587 / 131072) := by
    decide!
  have h1 : storeFloat32 (Num.add (some (-11809587 / 131072)) (some (-11809587 / 131072))) = some (-11809587 / 65536) := by
    decide!
  have h2 : storeFloat32 (Num.add (some (-11809587 / 65536)) (some (-11809587 / 131072))) = some (-4428595 / 16384) := by
    decide!
  have h3 : storeFloat32 (Num.add (some (-4428595 / 16384)) (some (-11809587 / 131072))) = some (-11809587 / 32768) := by
    decide!
  have h4 : storeFloat32 (Num.add (some (-11809587 / 32768)) (some (-11809587 / 131072))) = some (-901 / 2) := by
    decide!
  have h5 : storeFloat32 (Num.add (some (-901 / 2)) (some (-11809587 / 131072))) = some (-4428595 / 8192) := by
    decide!
  have h6 : storeFloat32 (Num.add (some (-4428595 / 8192)) (some (-11809587 / 131072))) = some (-2583347 / 4096) := by
    decide!
  have h7 : storeFloat32 (Num.add (some (-2583347 / 4096)) (some (-11809587 / 131072))) = some (-5904793 / 8192) := by
    decide!
  have h8 : storeFloat32 (Num.add (some (-5904793 / 8192)) (some (-11809587 / 131072))) = some (-1660723 / 2048) := by
    decide!
  have h9 : storeFloat32 (Num.add (some (-1660723 / 2048)) (some (-11809587 / 131072))) = some (-7380991 / 8192) := by
    decide!
  have h10 : storeFloat32 (Num.add (some (-7380991 / 8192)) (some (-11809587 / 131072))) = some (-4059545 / 4096) := by
    decide!
  have h11 : storeFloat32 (Num.add (some (-4059545 / 4096)) (some (-11809587 / 131072))) = some (-8857189 / 8192) := by
    decide!
  have h12 : storeFloat32 (Num.add (some (-8857189 / 8192)) (some (-11809587 / 131072))) = some (-1199411 / 1024) := by
    decide!
  have h13 : storeFloat32 (Num.add (some (-1199411 / 1024)) (some (-11809587 / 131072))) = some (-10333387 / 8192) := by
    decide!
  have h14 : storeFloat32 (Num.add (some (-10333387 / 8192)) (some (-11809587 / 131072))) = some (-5535743 / 4096) := by
    decide!
  have h15 : storeFloat32 (Num.add (some (-5535743 / 4096)) (some (-11809587 / 131072))) = some (-11809585 / 8192) := by
    decide!
  have h16 : storeFloat32 (Num.add (some (-11809585 / 8192)) (some (-11809587 / 131072))) = some (-3136921 / 2048) := by
    decide!
  have h17 : storeFloat32 (Num.add (some (-3136921 / 2048)) (some (-11809587 / 131072))) = some (-13285783 / 8192) := by
    decide!
  have h18 : storeFloat32 (Num.add (some (-13285783 / 8192)) (some (-11809587 / 131072))) = some (-7011941 / 4096) := by
    decide!
  have h19 : storeFloat32 (Num.add (some (-7011941 / 4096)) (some (-11809587 / 131072))) = some (-14761981 / 8192) := by
    decide!
  have hd : storeFloat32 (Num.divLength (some (-14761981 / 8192)) 20) = some (-11809585 / 131072) := by
    decide!
  have hl : List.replicate 20 (-11809587 / 131072 : ℚ) =
      [(-11809587 / 131072), (-11809587 / 131072), (-11809587 / 131072), (-11809587 / 131072), (-11809587 / 131072), (-11809587 / 131072), (-11809587 / 131072), (-11809587 / 131072), (-11809587 / 131072), (-11809587 / 131072), (-11809587 / 131072), (-11809587 / 131072), (-11809587 / 131072), (-11809587 / 131072), (-11809587 / 131072), (-11809587 / 131072), (-11809587 / 131072), (-11809587 / 131072), (-11809587 / 131072), (-11809587 / 131072)] := rfl
  unfold float32Mean
  rw [List.length_replicate, hl]
  simp only [List.foldl_cons, List.foldl_nil]
  rw [h0, h1, h2, h3, h4, h5, h6, h7, h8, h9, h10, h11, h12, h13, h14, h15, h16, h17, h18, h19, hd]

/-- C6 fails on the code: start, calibrate, 19 timeouts and the installing
timeout, every captured bin being the float32 value -90.0999984741211
(-11809587 / 131072).  Bin 0 of the installed profile is
-90.09998321533203 (-11809585 / 131072), which is neither the constant nor
the arithmetic mean of the 20 spectra. -/
theorem calibration_constant_not_preserved :
    (run State.initial
        ([Event.startRecording (fun _ => 0),
            Event.calibrateBackground (fun _ => -11809587 / 131072)] ++
          List.replicate 19 (Event.timeout (fun _ => -11809587 / 131072)) ++
          [Event.timeout (fun _ => 0)])).backgroundData.bind (fun profile => profile[0]?) =
        some (some (-11809585 / 131072 : ℚ)) ∧
      (-11809585 / 131072 : ℚ) ≠ -11809587 / 131072 := by
  refine ⟨?_, by norm_num⟩
  have hcb : ∀ e ∈ List.replicate 19 (Event.timeout (fun _ => (-11809587 / 131072 : ℚ))),
      e.isCallback = true := by
    intro e he
    rw [List.eq_of_mem_replicate he]
    rfl
  have hfm : (List.replicate 19 (Event.timeout (fun _ => (-11809587 / 131072 : ℚ)))).filterMap
      Event.captured = List.replicate 19 (fun _ => (-11809587 / 131072 : ℚ)) := rfl
  have h := (calibration_run (startRecording State.initial (fun _ => 0))
    (fun _ => -11809587 / 131072) (fun _ => 0)
    (List.replicate 19 (Event.timeout (fun _ => -11809587 / 131072))) rfl rfl hcb
    (by rw [hfm, List.length_replicate])).2.2.2.1
  rw [hfm, averageSamples_readings] at h
  rw [run_append State.initial _ [Event.timeout (fun _ => 0)],
    run_cons _ (Event.timeout (fun _ => 0)) [], run_nil, List.cons_append,
    run_cons State.initial, step_startRecording, List.singleton_append, h]
  have hbins : ((fun _ : Nat => (-11809587 / 131072 : ℚ)) ::
      List.replicate 19 (fun _ => -11809587 / 131072)).map (fun r => r 0) =
      List.replicate 20 (-11809587 / 131072) := rfl
  have h0 : 0 < frequencyBinCount := by decide
  simp only [Option.some_bind, List.getElem?_map, List.getElem?_range h0, Option.map_some']
  rw [hbins, float32Mean_example]

/-- C6 as the code has it: a calibration started with an analyser and no
other calibration pending, and left to its timers (animation frames may run
in between), has collected exactly 20 spectra after the `captureSample` steps
with counts 0 to 19 and has installed nothing yet.  The step with count 20
installs the sequence of `frequencyBinCount` bins whose bin `i` is the
float32 mean of bin `i` over the 20 spectra: each spectrum added in turn to a
float32 cell, then the cell divided by 20, a divisor that is not zero, every
store rounded.  When the multiples `k`, `2 k`, ..., `20 k` are stored
unchanged and every collected bin is `k`, every profile bin is `k`. -/
theorem calibration_installs_float32_mean (s : State) (r0 rLast : Nat → ℚ)
    (events : List Event) (ha : s.analyser = true) (ht : s.timers = [])
    (hev : ∀ e ∈ events, e.isCallback = true)
    (hcount : (events.filterMap Event.captured).length = 19) :
    let readings := r0 :: events.filterMap Event.captured
    let collected := readings.map (fun r => getFloatFrequencyData r frequencyBinCount)
    let s20 := run s (Event.calibrateBackground r0 :: events)
    let s21 := step s20 (Event.timeout rLast)
    let profile := averageSamples frequencyBinCount collected
    s20.timers = [⟨collected, 20⟩] ∧ collected.length = 20 ∧
      s20.backgroundData = s.backgroundData ∧
      s21.timers = [] ∧ s21.backgroundData = some profile ∧ s21.noiseProfile = some profile ∧
      profile.length = frequencyBinCount ∧
      (∀ i : Nat, i < frequencyBinCount →
        profile[i]? = some (float32Mean (readings.map (fun r => r i)))) ∧
      (∀ k : ℚ,
        (∀ j : Nat, 1 ≤ j → j ≤ 20 → storeFloat32 (some ((j : ℚ) * k)) = some ((j : ℚ) * k)) →
        (∀ r ∈ readings, ∀ i : Nat, i < frequencyBinCount → r i = k) →
        ∀ i : Nat, i < frequencyBinCount → profile[i]? = some (some k)) := by
  intro readings collected s20 s21 profile
  obtain ⟨h1, h2, h3, h4, h5⟩ := calibration_run s r0 rLast events ha ht hev hcount
  have hlen : readings.length = 20 := by simp [readings, hcount]
  have hbin : ∀ i : Nat, i < frequencyBinCount →
      profile[i]? = some (float32Mean (readings.map (fun r => r i))) := by
    intro i hi
    show (averageSamples frequencyBinCount
      (readings.map (fun r => getFloatFrequencyData r frequencyBinCount)))[i]? = _
    rw [averageSamples_readings]
    simp [hi]
  refine ⟨h1, by simp [collected, hlen], h2, h3, h4, h5, averageSamples_length _ _, hbin, ?_⟩
  intro k hk hconst i hi
  rw [hbin i hi]
  have hrep : readings.map (fun r => r i) = List.replicate 20 k := by
    rw [List.eq_replicate_iff]
    refine ⟨by rw [List.length_map, hlen], ?_⟩
    intro b hb
    obtain ⟨r, hr, rfl⟩ := List.mem_map.mp hb
    exact hconst r hr i hi
  rw [hrep, float32Mean_replicate k 20 (by decide) hk]

theorem calibration_installs_float32_mean_witness :
    (startRecording State.initial (fun _ => 0)).analyser = true ∧
      (startRecording State.initial (fun _ => 0)).timers = [] ∧
      ((List.replicate 19 (Event.timeout (fun _ => (-90 : ℚ)))).filterMap
        Event.captured).length = 19 ∧
      (∀ i : Nat, i < frequencyBinCount →
        (averageSamples frequencyBinCount
          (((fun _ => -90) :: (List.replicate 19 (Event.timeout (fun _ => (-90 : ℚ)))).filterMap
            Event.captured).map
            (fun r => getFloatFrequencyData r frequencyBinCount)))[i]? = some (some (-90))) :=
  ⟨rfl, rfl,
    (by
      have hfm : (List.replicate 19 (Event.timeout (fun _ => (-90 : ℚ)))).filterMap
          Event.captured = List.replicate 19 (fun _ => (-90 : ℚ)) := rfl
      rw [hfm, List.length_replicate]),
    (calibration_installs_float32_mean (startRecording State.initial (fun _ => 0))
      (fun _ => -90) (fun _ => 0) (List.replicate 19 (Event.timeout (fun _ => -90))) rfl rfl
      (by
        intro e he
        rw [List.eq_of_mem_replicate he]
        rfl)
      (by
        have hfm : (List.replicate 19 (Event.timeout (fun _ => (-90 : ℚ)))).filterMap
            Event.captured = List.replicate 19 (fun _ => (-90 : ℚ)) := rfl
        rw [hfm, List.length_replicate])).2.2.2.2.2.2.2.2 (-90)
      (by
        intro j h1 h20
        interval_cases j <;> decide!)
      (by
        intro r hr i _
        have hfm : (List.replicate 19 (Event.timeout (fun _ => (-90 : ℚ)))).filterMap
            Event.captured = List.replicate 19 (fun _ => (-90 : ℚ)) := rfl
        rw [hfm] at hr
        rcases List.mem_cons.mp hr with h | h
        · rw [h]
        · rw [List.eq_of_mem_replicate h])⟩

/-! ## Stop during a calibration: claim C5 -/

/-- C5, evaluated on the run: start, calibrate, five timeouts, stop, then
fifteen more timeouts with no calibration begun after the stop.  Right after
`stopRecording` there is no profile and the component is not recording; at
the end of the run the interrupted calibration has installed the profile
averaged from its 20 samples, 14 of them captured after the stop. -/
theorem stop_does_not_cancel_calibration :
    (run State.initial
        ([Event.startRecording (fun _ => 0), Event.calibrateBackground (fun _ => 0)] ++
          List.replicate 5 (Event.timeout (fun _ => 0)) ++ [Event.stopRecording])).backgroundData =
        none ∧
      (run State.initial
        ([Event.startRecording (fun _ => 0), Event.calibrateBackground (fun _ => 0)] ++
          List.replicate 5 (Event.timeout (fun _ => 0)) ++ [Event.stopRecording] ++
          List.replicate 15 (Event.timeout (fun _ => 0)))).backgroundData =
        some (averageSamples frequencyBinCount
          (List.replicate 20 (getFloatFrequencyData (fun _ => 0) frequencyBinCount))) ∧
      (run State.initial
        ([Event.startRecording (fun _ => 0), Event.calibrateBackground (fun _ => 0)] ++
          List.replicate 5 (Event.timeout (fun _ => 0)) ++ [Event.stopRecording] ++
          List.replicate 15 (Event.timeout (fun _ => 0)))).isRecording = false := by
  have hpre : List.replicate 5 (Event.timeout (fun _ => 0)) =
      (List.replicate 5 (fun _ : Nat => (0 : ℚ))).map Event.timeout := by simp
  have hpost : List.replicate 15 (Event.timeout (fun _ => 0)) =
      (List.replicate 14 (fun _ : Nat => (0 : ℚ))).map Event.timeout ++
        [Event.timeout (fun _ => 0)] := by
    simp [List.replicate_succ']
  have h := calibration_survives_stop (startRecording State.initial (fun _ => 0))
    (fun _ => 0) (fun _ => 0) (List.replicate 5 (fun _ => 0)) (List.replicate 14 (fun _ => 0))
    rfl rfl (by simp [totalSamples])
  rw [← hpre, List.append_assoc _ _ [Event.timeout _], ← hpost] at h
  have hsamples : ((fun _ : Nat => (0 : ℚ)) ::
      (List.replicate 5 (fun _ : Nat => (0 : ℚ)) ++ List.replicate 14 (fun _ => 0))).map
        (fun r => getFloatFrequencyData r frequencyBinCount) =
      List.replicate 20 (getFloatFrequencyData (fun _ => 0) frequencyBinCount) := by
    rw [List.eq_replicate_iff]
    refine ⟨by simp, ?_⟩
    intro b hb
    obtain ⟨r, hr, rfl⟩ := List.mem_map.mp hb
    rcases List.mem_cons.mp hr with hr | hr
    · rw [hr]
    · rcases List.mem_append.mp hr with hr | hr <;> rw [List.eq_of_mem_replicate hr]
  rw [hsamples] at h
  have hrun : ∀ events : List Event,
      run State.initial ([Event.startRecording (fun _ => 0),
        Event.calibrateBackground (fun _ => 0)] ++ events) =
      run (startRecording State.initial (fun _ => 0))
        ([Event.calibrateBackground (fun _ => 0)] ++ events) := by
    intro events
    rw [List.cons_append, run_cons, step_startRecording]
  refine ⟨?_, ?_, ?_⟩
  · rw [run_append]
    simp only [run_cons, run_nil, step_stopRecording]
    exact stopRecording_backgroundData _
  · simp only [List.append_assoc] at h ⊢
    rw [hrun]
    exact h.1
  · simp only [List.append_assoc] at h ⊢
    rw [hrun]
    exact h.2

/-! ## No profile: claim C2 -/

/-- C2 fails on the code: right after `startRecording` there is no noise
profile, and after the next `process` step, whatever the live spectrum (here
bin `i` reads `i`), the gain in effect is still the 1 of the fresh gain node,
not the floor 0.1. -/
theorem no_profile_gain_is_not_floor :
    (startRecording State.initial (fun _ => 0)).backgroundData = none ∧
      (step (startRecording State.initial (fun _ => 0))
        (Event.animationFrame (fun i => (i : ℚ)))).backgroundData = none ∧
      (step (startRecording State.initial (fun _ => 0))
        (Event.animationFrame (fun i => (i : ℚ)))).gainNode = some 1 ∧
      (step (startRecording State.initial (fun _ => 0))
        (Event.animationFrame (fun i => (i : ℚ)))).gainNode ≠ some (1 / 10) := by
  have hgain : (step (startRecording State.initial (fun _ => 0))
      (Event.animationFrame (fun i => (i : ℚ)))).gainNode = some 1 := by
    simp [step, startRecording, processAudio, process, processStep, State.initial, createGain]
  refine ⟨rfl, ?_, hgain, ?_⟩
  · simp [step, startRecording, processAudio, process, State.initial]
  · rw [hgain]
    norm_num

/-- C2 as the code has it: without a noise profile a `process` step leaves
the gain as it was, for every live spectrum.  Over a run of events during
which no profile is ever installed, the gain at the end is the 1 of the fresh
gain node once a `startRecording` has happened in the run, and the gain of
the start of the run otherwise: stopping, calibrating, timers and animation
frames do not touch it. -/
theorem gain_without_profile (s : State) (events : List Event) (reading : Nat → ℚ)
    (h : ∀ k : Nat, k ≤ events.length → (run s (events.take k)).backgroundData = none) :
    (run s events).gainNode = (if events.any Event.isStart then some 1 else s.gainNode) ∧
      (process (run s events) reading).gainNode = (run s events).gainNode ∧
      (process (run s events) reading).backgroundData = none := by
  have hend : (run s events).backgroundData = none := by
    have := h events.length le_rfl
    simpa using this
  refine ⟨run_gainNode_without_profile events s h, ?_, hend⟩
  cases hg : (run s events).gainNode <;> simp [process, processStep, hend, hg]

theorem gain_without_profile_witness :
    (∀ k : Nat, k ≤ [Event.startRecording (fun _ => 0), Event.animationFrame (fun _ => 20),
          Event.calibrateBackground (fun _ => 0), Event.timeout (fun _ => 0),
          Event.stopRecording, Event.animationFrame (fun _ => 20)].length →
        (run State.initial
          ([Event.startRecording (fun _ => 0), Event.animationFrame (fun _ => 20),
            Event.calibrateBackground (fun _ => 0), Event.timeout (fun _ => 0),
            Event.stopRecording, Event.animationFrame (fun _ => 20)].take k)).backgroundData =
          none) ∧
      (run State.initial
        [Event.startRecording (fun _ => 0), Event.animationFrame (fun _ => 20),
          Event.calibrateBackground (fun _ => 0), Event.timeout (fun _ => 0),
          Event.stopRecording, Event.animationFrame (fun _ => 20)]).gainNode = some 1 :=
  have hrun : ∀ k : Nat, k ≤ [Event.startRecording (fun _ => 0),
        Event.animationFrame (fun _ => 20), Event.calibrateBackground (fun _ => 0),
        Event.timeout (fun _ => 0), Event.stopRecording,
        Event.animationFrame (fun _ => 20)].length →
      (run State.initial
        ([Event.startRecording (fun _ => 0), Event.animationFrame (fun _ => 20),
          Event.calibrateBackground (fun _ => 0), Event.timeout (fun _ => 0),
          Event.stopRecording, Event.animationFrame (fun _ => 20)].take k)).backgroundData =
        none := by
    intro k hk
    have hk6 : k ≤ 6 := hk
    interval_cases k <;> rfl
  ⟨hrun, (gain_without_profile State.initial _ (fun _ => 0) hrun).1⟩

end NoiseExtraction
